import Mathlib

/-!
Shallow embedding of `src/src/transition_table.rs` (repository
`transition-tables`): the DFA transition-table data model and its
`parse` / `serialize` pair.

Modelling conventions:
* text is modelled as `List Char`; Rust `&str` operations
  (`str::lines`, `str::split_whitespace`, `char::is_whitespace`)
  are translated as executable functions on character lists;
* Rust `usize` is modelled as `Nat`; `usize::from_str` is modelled by
  `parseUsize`, including its acceptance of one leading sign character
  and its two relevant error messages (overflow is not modelled: no
  claim depends on it);
* the possible panic in `parse` (the `unwrap` on the first character
  of column 0, and slice indexing) is modelled by an `Option` layer:
  `none` is a panic, `some r` is the returned value `r`;
* Rust `Vec::sort_by_key` is a stable sort; it is modelled by
  `List.insertionSort` keyed on the row id, which is stable.
-/

/-- A transition in the DFA transition table (enum
`TransitionTableTransition` in the source): either a transition to a
state (`Ok`) or a transition to an error state (`Err`). -/
inductive TransitionTableTransition where
  | Ok : Nat → TransitionTableTransition
  | Err : TransitionTableTransition
deriving DecidableEq, Repr

/-- The starting state ID (`STARTING_STATE_ID` in the source). -/
def STARTING_STATE_ID : Nat := 0

/-- A state (row) in the DFA transition table (struct
`TransitionTableRow` in the source). -/
structure TransitionTableRow where
  accepting : Bool
  id : Nat
  transitions : List TransitionTableTransition
deriving DecidableEq, Repr

/-- A DFA transition table (struct `TransitionTable` in the source). -/
structure TransitionTable where
  rows : List TransitionTableRow
deriving DecidableEq, Repr

/-- Errors from parsing or serializing (struct `ParseSerializeError`
in the source); the message is the exact character string built by the
source code. -/
structure ParseSerializeError where
  message : List Char
deriving DecidableEq, Repr

/-- The symbol for an error transition (`ERROR_SYMBOL = "E"`). -/
def ERROR_SYMBOL : List Char := ['E']

/-- The whitespace characters recognised by the tokenizer (the ASCII
part of Rust `char::is_whitespace`; the inputs of interest contain no
other whitespace). -/
def isRustWhitespace (c : Char) : Bool :=
  c = ' ' || c = '\t' || c = '\n' || c = '\r'

/-- Worker for `splitWhitespace`; `acc` holds the characters of the
current token in reverse. -/
def splitWhitespaceAux : List Char → List Char → List (List Char)
  | [], acc => if acc = [] then [] else [acc.reverse]
  | c :: cs, acc =>
    if isRustWhitespace c then
      if acc = [] then splitWhitespaceAux cs []
      else acc.reverse :: splitWhitespaceAux cs []
    else splitWhitespaceAux cs (c :: acc)

/-- Rust `str::split_whitespace`: the maximal nonempty runs of
non-whitespace characters. -/
def splitWhitespace (cs : List Char) : List (List Char) :=
  splitWhitespaceAux cs []

/-- Remove one trailing carriage return, as Rust `str::lines` does on
each line. -/
def stripTrailingCR : List Char → List Char
  | [] => []
  | [c] => if c = '\r' then [] else [c]
  | c :: c₂ :: cs => c :: stripTrailingCR (c₂ :: cs)

/-- Worker for `rustLines`; `acc` holds the current line in reverse. -/
def linesAux : List Char → List Char → List (List Char)
  | [], acc => if acc = [] then [] else [stripTrailingCR acc.reverse]
  | c :: cs, acc =>
    if c = '\n' then stripTrailingCR acc.reverse :: linesAux cs []
    else linesAux cs (c :: acc)

/-- Rust `str::lines`: split at each newline, drop a final empty
segment, strip one trailing carriage return per line. -/
def rustLines (cs : List Char) : List (List Char) :=
  linesAux cs []

/-- The decimal digit character for a digit value below ten. -/
def digitChar (d : Nat) : Char := Char.ofNat (48 + d)

/-- Fuel-based worker for `natToChars` (the fuel makes the recursion
structural; `natToChars` always supplies enough fuel). -/
def natToCharsAux : Nat → Nat → List Char → List Char
  | 0, _, acc => acc
  | fuel + 1, n, acc =>
    if n < 10 then digitChar n :: acc
    else natToCharsAux fuel (n / 10) (digitChar (n % 10) :: acc)

/-- Canonical decimal representation of a natural number (Rust
`usize::to_string`): no sign, no leading zeros except for zero
itself. -/
def natToChars (n : Nat) : List Char := natToCharsAux (n + 1) n []

/-- The numeric value of a digit character. -/
def charDigit (c : Char) : Nat := c.toNat - 48

/-- Accumulate the value of a digit string left to right; `none` on
the first non-digit character. -/
def digitsVal : List Char → Nat → Option Nat
  | [], acc => some acc
  | c :: cs, acc =>
    if c.isDigit then digitsVal cs (acc * 10 + charDigit c) else none

/-- Rust error text for parsing an integer from an empty string. -/
def emptyIntError : List Char := "cannot parse integer from empty string".data

/-- Rust error text for a non-digit character in an integer. -/
def invalidDigitError : List Char := "invalid digit found in string".data

/-- Rust `usize::from_str` (unbounded): an optional leading plus sign
followed by at least one decimal digit. -/
def parseUsize (cs : List Char) : Except (List Char) Nat :=
  match cs with
  | [] => .error emptyIntError
  | c :: rest =>
    let digits := if c = '+' then rest else c :: rest
    match digits with
    | [] => .error invalidDigitError
    | _ =>
      match digitsVal digits 0 with
      | some v => .ok v
      | none => .error invalidDigitError

/-- Message of source line 72: too few columns. -/
def tooFewColumnsMsg (n : Nat) : List Char :=
  "Line ".data ++ natToChars n ++ " has too few columns".data

/-- Message of source line 82: inconsistent column count. -/
def differentColumnsMsg (n : Nat) : List Char :=
  "Line ".data ++ natToChars n ++
    " has a different number of columns than the previous lines".data

/-- Message of source line 103: invalid accepting-state marker. -/
def invalidAcceptingMsg (n : Nat) : List Char :=
  "Line ".data ++ natToChars n ++ " has an invalid accepting state".data

/-- Message of source line 110: invalid state ID, with the underlying
integer-parse error text. -/
def invalidIdMsg (n : Nat) (e : List Char) : List Char :=
  "Line ".data ++ natToChars n ++ " has an invalid state ID: ".data ++ e

/-- Message of source lines 122-128: invalid transition value, with
its 1-based column number and the underlying integer-parse error
text. -/
def invalidTransitionMsg (n col : Nat) (e : List Char) : List Char :=
  "Line ".data ++ natToChars n ++ " column ".data ++ natToChars col ++
    " has an invalid transition: ".data ++ e

/-- The transition-parsing loop of source lines 113-131:
`columnIndex` enumerates the columns after the first two, the error
message reports column `columnIndex + 3`. The sentinel comparison with
`ERROR_SYMBOL` happens before any numeric parse. -/
def parseTransitions (lineIndex : Nat) :
    Nat → List (List Char) → Except ParseSerializeError (List TransitionTableTransition)
  | _, [] => .ok []
  | columnIndex, col :: cols =>
    if col = ERROR_SYMBOL then
      (parseTransitions lineIndex (columnIndex + 1) cols).map
        (TransitionTableTransition.Err :: ·)
    else
      match parseUsize col with
      | .ok n =>
        (parseTransitions lineIndex (columnIndex + 1) cols).map
          (TransitionTableTransition.Ok n :: ·)
      | .error e =>
        .error ⟨invalidTransitionMsg (lineIndex + 1) (columnIndex + 3) e⟩

/-- The accepting-state match of source lines 94-106, applied to the
first character of column 0. -/
def parseAccepting (lineIndex : Nat) (c : Char) :
    Except ParseSerializeError Bool :=
  match c with
  | '+' => .ok true
  | '-' => .ok false
  | _ => .error ⟨invalidAcceptingMsg (lineIndex + 1)⟩

/-- Source lines 93-134: the part of the per-line loop from the
accepting-state column on, after the column checks have passed.
`none` models a panic: indexing columns 0 or 1 when they do not exist,
or the `unwrap` when column 0 is an empty token. -/
def parseLineBody (lineIndex : Nat) (columns : List (List Char))
    (newExpected : Nat) :
    Option (Except ParseSerializeError (TransitionTableRow × Nat)) :=
  match columns with
  | c0 :: c1 :: transitionCols =>
    match c0.head? with
    | none => none
    | some ch =>
      match parseAccepting lineIndex ch with
      | .error err => some (.error err)
      | .ok accepting =>
        match parseUsize c1 with
        | .error e => some (.error ⟨invalidIdMsg (lineIndex + 1) e⟩)
        | .ok theId =>
          match parseTransitions lineIndex 0 transitionCols with
          | .error err => some (.error err)
          | .ok ts => some (.ok (⟨accepting, theId, ts⟩, newExpected))
  | _ => none

/-- One iteration of the line loop of source lines 59-135: tokenize,
check for too few columns, check column-count consistency (the second
component of a successful result is the column count the next lines
must match), then parse the row. -/
def parseLine (lineIndex : Nat) (expected : Option Nat) (line : List Char) :
    Option (Except ParseSerializeError (TransitionTableRow × Nat)) :=
  let columns := splitWhitespace line
  if columns.length < 2 then
    some (.error ⟨tooFewColumnsMsg (lineIndex + 1)⟩)
  else
    match expected with
    | some e =>
      if e = columns.length then parseLineBody lineIndex columns e
      else some (.error ⟨differentColumnsMsg (lineIndex + 1)⟩)
    | none => parseLineBody lineIndex columns columns.length

/-- The whole line loop: thread the line index and the expected column
count, collect the rows in input order, abort on the first error. -/
def parseLines :
    Nat → Option Nat → List (List Char) →
      Option (Except ParseSerializeError (List TransitionTableRow))
  | _, _, [] => some (.ok [])
  | lineIndex, expected, line :: rest =>
    match parseLine lineIndex expected line with
    | none => none
    | some (.error e) => some (.error e)
    | some (.ok (row, newExpected)) =>
      match parseLines (lineIndex + 1) (some newExpected) rest with
      | none => none
      | some (.error e) => some (.error e)
      | some (.ok rows) => some (.ok (row :: rows))

/-- The sort key comparison of source line 138: compare rows by id. -/
def rowLe (a b : TransitionTableRow) : Prop := a.id ≤ b.id

instance : DecidableRel rowLe := fun a b => Nat.decLe a.id b.id

instance : IsTotal TransitionTableRow rowLe :=
  ⟨fun a b => Nat.le_total a.id b.id⟩

instance : IsTrans TransitionTableRow rowLe :=
  ⟨fun _ _ _ h h2 => Nat.le_trans h h2⟩

/-- Source line 138, `rows.sort_by_key(|row| row.id)`: a stable sort
of the rows by id, modelled by insertion sort (which is stable). -/
def sortRows (rows : List TransitionTableRow) : List TransitionTableRow :=
  List.insertionSort rowLe rows

/-- Source lines 54-141, `TransitionTable::parse`: split the input
into lines, parse each line, sort the rows by state ID. `none` models
a panic, `some` the returned `Result`. -/
def TransitionTable.parse (input : List Char) :
    Option (Except ParseSerializeError TransitionTable) :=
  match parseLines 0 none (rustLines input) with
  | none => none
  | some (.error e) => some (.error e)
  | some (.ok rows) => some (.ok ⟨sortRows rows⟩)

/-- The text a single transition contributes to its row's line
(source lines 156-167): a space, then the decimal target id or the
error symbol. -/
def transitionText : TransitionTableTransition → List Char
  | .Ok state => ' ' :: natToChars state
  | .Err => ' ' :: ERROR_SYMBOL

/-- The text of one row (source lines 148-167): accepting marker,
space, decimal id, then the transitions. -/
def rowText (row : TransitionTableRow) : List Char :=
  (if row.accepting then '+' else '-') :: ' ' ::
    (natToChars row.id ++ (row.transitions.map transitionText).flatten)

/-- The row loop of source lines 147-172: each row's text, with a
newline after every row whose index is below `total - 1`. -/
def serializeAux (total : Nat) :
    Nat → List TransitionTableRow → List Char
  | _, [] => []
  | rowIndex, row :: rest =>
    rowText row ++ (if rowIndex < total - 1 then ['\n'] else []) ++
      serializeAux total (rowIndex + 1) rest

/-- Source lines 144-175, `TransitionTable::serialize`: the rows in
their current order; the only exit is `Ok`. -/
def TransitionTable.serialize (t : TransitionTable) :
    Except ParseSerializeError (List Char) :=
  .ok (serializeAux t.rows.length 0 t.rows)

/-- Join a list of character lists with a separator between
consecutive elements and nothing at either end. -/
def joinSep (sep : List Char) : List (List Char) → List Char
  | [] => []
  | [l] => l
  | l :: l₂ :: ls => l ++ sep ++ joinSep sep (l₂ :: ls)

/-- The canonical text of a table: its rows' lines joined by single
newlines, with no trailing newline. -/
def serializeText (t : TransitionTable) : List Char :=
  joinSep ['\n'] (t.rows.map rowText)

/-- The token a transition contributes to its row's line (the part of
`transitionText` after the separating space). -/
def transitionTok : TransitionTableTransition → List Char
  | .Ok n => natToChars n
  | .Err => ERROR_SYMBOL

/-- The whitespace-delimited tokens of a row's canonical line: the
accepting marker, the decimal id, one token per transition. -/
def rowTokens (row : TransitionTableRow) : List (List Char) :=
  [if row.accepting then '+' else '-'] :: natToChars row.id ::
    row.transitions.map transitionTok

/-- A text is well formed, id-sorted and canonical when it is the
serialization of some table whose rows are sorted ascending by id and
have a common transition count: markers are single `+`/`-`
characters, numbers are canonical decimals, tokens are separated by
single spaces, lines by single newlines, with no trailing newline. -/
def isCanonicalSortedText (s : List Char) : Prop :=
  ∃ (rows : List TransitionTableRow) (k : Nat),
    (∀ r ∈ rows, r.transitions.length = k) ∧
    List.Pairwise rowLe rows ∧
    s = serializeText ⟨rows⟩

/-- The five-row example table of the source's tests. -/
def providedTable : TransitionTable :=
  ⟨[⟨false, 0, [.Ok 1, .Err, .Err, .Err, .Err]⟩,
    ⟨false, 1, [.Err, .Ok 2, .Err, .Err, .Err]⟩,
    ⟨false, 2, [.Ok 2, .Ok 3, .Ok 2, .Ok 2, .Ok 2]⟩,
    ⟨false, 3, [.Ok 4, .Ok 3, .Ok 2, .Ok 2, .Ok 2]⟩,
    ⟨true, 4, [.Err, .Err, .Err, .Err, .Err]⟩]⟩

/-! ### Facts about decimal numerals -/

/-- Digit characters behave well: they are digits, are not whitespace,
and are distinct from the marker and sentinel characters. -/
theorem digitChar_good {d : Nat} (h : d < 10) :
    (digitChar d).isDigit = true ∧ digitChar d ≠ 'E' ∧
      digitChar d ≠ '+' ∧ isRustWhitespace (digitChar d) = false ∧
      digitChar d ≠ '\n' ∧ digitChar d ≠ '\r' := by
  interval_cases d <;> exact ⟨rfl, by decide, by decide, rfl, by decide, by decide⟩

theorem charDigit_digitChar {d : Nat} (h : d < 10) :
    charDigit (digitChar d) = d := by
  interval_cases d <;> rfl

/-- The accumulator of `natToCharsAux` only ever receives the final
digits: with enough fuel the worker computes `natToChars n` in front
of it. -/
theorem natToCharsAux_acc :
    ∀ (n fuel : Nat) (acc : List Char), n < fuel →
      natToCharsAux fuel n acc = natToChars n ++ acc := by
  intro n
  induction n using Nat.strong_induction_on with
  | _ n ih =>
    intro fuel acc h
    match fuel, h with
    | fuel + 1, h =>
      by_cases h10 : n < 10
      · simp [natToCharsAux, natToChars, h10]
      · have hpos : 0 < n := by omega
        have hdiv : n / 10 < n := Nat.div_lt_self hpos (by omega)
        have hstep : natToChars n = natToChars (n / 10) ++ [digitChar (n % 10)] := by
          conv_lhs => rw [natToChars]
          simp only [natToCharsAux, if_neg h10]
          rw [ih (n / 10) hdiv n _ hdiv]
        simp only [natToCharsAux, if_neg h10]
        rw [ih (n / 10) hdiv fuel _ (by omega), hstep]
        simp

/-- Unfolding of `natToChars` below ten. -/
theorem natToChars_lt {n : Nat} (h : n < 10) :
    natToChars n = [digitChar n] := by
  simp [natToChars, natToCharsAux, h]

/-- Unfolding of `natToChars` at ten and above. -/
theorem natToChars_ge {n : Nat} (h : 10 ≤ n) :
    natToChars n = natToChars (n / 10) ++ [digitChar (n % 10)] := by
  have h10 : ¬ n < 10 := by omega
  have hpos : 0 < n := by omega
  conv_lhs => rw [natToChars]
  simp only [natToCharsAux, if_neg h10]
  rw [natToCharsAux_acc (n / 10) n _ (Nat.div_lt_self hpos (by omega))]

/-- Every character of a decimal numeral is a digit character. -/
theorem mem_natToChars :
    ∀ (n : Nat), ∀ c ∈ natToChars n, ∃ d, d < 10 ∧ c = digitChar d := by
  intro n
  induction n using Nat.strong_induction_on with
  | _ n ih =>
    intro c hc
    by_cases h10 : n < 10
    · rw [natToChars_lt h10] at hc
      simp at hc
      exact ⟨n, h10, hc⟩
    · rw [natToChars_ge (by omega)] at hc
      rcases List.mem_append.mp hc with h | h
      · exact ih (n / 10) (Nat.div_lt_self (by omega) (by omega)) c h
      · simp at h
        exact ⟨n % 10, Nat.mod_lt _ (by omega), h⟩

/-- A decimal numeral is never empty. -/
theorem natToChars_ne_nil (n : Nat) : natToChars n ≠ [] := by
  by_cases h10 : n < 10
  · rw [natToChars_lt h10]; simp
  · rw [natToChars_ge (by omega)]; simp

/-- `digitsVal` processes a concatenation left to right. -/
theorem digitsVal_append :
    ∀ (xs ys : List Char) (acc : Nat),
      digitsVal (xs ++ ys) acc =
        (digitsVal xs acc).bind (fun a => digitsVal ys a) := by
  intro xs
  induction xs with
  | nil => intro ys acc; simp [digitsVal]
  | cons c cs ih =>
    intro ys acc
    by_cases hd : c.isDigit
    · simp [digitsVal, hd, ih]
    · simp [digitsVal, hd]

/-- Reading back the decimal numeral of `n` yields `n`. -/
theorem digitsVal_natToChars :
    ∀ (n : Nat), digitsVal (natToChars n) 0 = some n := by
  intro n
  induction n using Nat.strong_induction_on with
  | _ n ih =>
    by_cases h10 : n < 10
    · rw [natToChars_lt h10]
      simp [digitsVal, (digitChar_good h10).1, charDigit_digitChar h10]
    · rw [natToChars_ge (by omega), digitsVal_append,
        ih (n / 10) (Nat.div_lt_self (by omega) (by omega))]
      have hm : n % 10 < 10 := Nat.mod_lt _ (by omega)
      simp [digitsVal, (digitChar_good hm).1, charDigit_digitChar hm]
      omega

/-- Rust `usize::from_str` inverts `usize::to_string`. -/
theorem parseUsize_natToChars (n : Nat) :
    parseUsize (natToChars n) = .ok n := by
  rcases hcons : natToChars n with _ | ⟨c, cs⟩
  · exact absurd hcons (natToChars_ne_nil n)
  · have hcmem : c ∈ natToChars n := by rw [hcons]; simp
    obtain ⟨d, hd, hcd⟩ := mem_natToChars n c hcmem
    have hplus : c ≠ '+' := hcd ▸ (digitChar_good hd).2.2.1
    have hval : digitsVal (c :: cs) 0 = some n := hcons ▸ digitsVal_natToChars n
    simp only [parseUsize, if_neg hplus]
    rw [hval]

/-! ### Facts about tokenization and line splitting -/

/-- Every token produced by the whitespace splitter is nonempty. -/
theorem splitWhitespaceAux_ne_nil :
    ∀ (cs acc : List Char) (t : List Char),
      t ∈ splitWhitespaceAux cs acc → t ≠ [] := by
  intro cs
  induction cs with
  | nil =>
    intro acc t ht
    simp only [splitWhitespaceAux] at ht
    by_cases hacc : acc = []
    · simp [hacc] at ht
    · rw [if_neg hacc] at ht
      simp at ht
      subst ht
      simpa using hacc
  | cons c cs ih =>
    intro acc t ht
    simp only [splitWhitespaceAux] at ht
    by_cases hws : isRustWhitespace c
    · rw [if_pos hws] at ht
      by_cases hacc : acc = []
      · rw [if_pos hacc] at ht
        exact ih [] t ht
      · rw [if_neg hacc] at ht
        rcases List.mem_cons.mp ht with h | h
        · subst h; simpa using hacc
        · exact ih [] t h
    · rw [if_neg hws] at ht
      exact ih (c :: acc) t ht

/-- Every token produced by `splitWhitespace` is nonempty. -/
theorem splitWhitespace_ne_nil (cs : List Char) :
    ∀ t ∈ splitWhitespace cs, t ≠ [] :=
  fun t ht => splitWhitespaceAux_ne_nil cs [] t ht

/-- The splitter consumes a run of non-whitespace characters into the
current token accumulator. -/
theorem splitWhitespaceAux_token :
    ∀ (tok rest acc : List Char),
      (∀ c ∈ tok, isRustWhitespace c = false) →
      splitWhitespaceAux (tok ++ rest) acc =
        splitWhitespaceAux rest (tok.reverse ++ acc) := by
  intro tok
  induction tok with
  | nil => intro rest acc _; simp
  | cons c cs ih =>
    intro rest acc h
    have hc : isRustWhitespace c = false := h c (by simp)
    simp only [List.cons_append, splitWhitespaceAux, hc]
    rw [if_neg (by simp [hc])]
    rw [show cs.append rest = cs ++ rest from rfl,
      ih rest (c :: acc) (fun x hx => h x (by simp [hx]))]
    simp

/-- Splitting the single-space join of nonempty whitespace-free tokens
recovers exactly those tokens. -/
theorem splitWhitespace_joinSep :
    ∀ (toks : List (List Char)),
      (∀ t ∈ toks, t ≠ [] ∧ ∀ c ∈ t, isRustWhitespace c = false) →
      splitWhitespace (joinSep [' '] toks) = toks := by
  intro toks
  induction toks with
  | nil => intro _; rfl
  | cons t ts ih =>
    intro h
    obtain ⟨htne, htws⟩ := h t (by simp)
    cases ts with
    | nil =>
      show splitWhitespaceAux (joinSep [' '] [t]) [] = [t]
      have hj : joinSep [' '] [t] = t ++ [] := by simp [joinSep]
      rw [hj, splitWhitespaceAux_token t [] [] htws]
      simp only [splitWhitespaceAux, List.append_nil]
      rw [if_neg (by simpa using htne)]
      simp
    | cons t₂ ts₂ =>
      show splitWhitespaceAux (joinSep [' '] (t :: t₂ :: ts₂)) [] = t :: t₂ :: ts₂
      have hjoin : joinSep [' '] (t :: t₂ :: ts₂) =
          t ++ (' ' :: joinSep [' '] (t₂ :: ts₂)) := by
        simp [joinSep]
      rw [hjoin, splitWhitespaceAux_token t _ [] htws]
      simp only [splitWhitespaceAux, List.append_nil]
      rw [if_pos (by decide), if_neg (by simpa using htne)]
      rw [show splitWhitespaceAux (joinSep [' '] (t₂ :: ts₂)) [] =
        splitWhitespace (joinSep [' '] (t₂ :: ts₂)) from rfl]
      rw [ih (fun x hx => h x (by simp [hx]))]
      simp

/-- Stripping the trailing carriage return of a list that has no
carriage return does nothing. -/
theorem stripTrailingCR_of_not_mem :
    ∀ (l : List Char), '\r' ∉ l → stripTrailingCR l = l := by
  intro l
  induction l with
  | nil => intro _; rfl
  | cons c cs ih =>
    intro h
    have hc : c ≠ '\r' := fun hc => h (by simp [hc])
    cases cs with
    | nil => simp [stripTrailingCR, hc]
    | cons c₂ cs₂ =>
      simp only [stripTrailingCR]
      rw [ih (fun hm => h (by simp [hm]))]

/-- The line splitter consumes a run of non-newline characters into
the current line accumulator. -/
theorem linesAux_line :
    ∀ (line rest acc : List Char),
      (∀ c ∈ line, c ≠ '\n') →
      linesAux (line ++ rest) acc = linesAux rest (line.reverse ++ acc) := by
  intro line
  induction line with
  | nil => intro rest acc _; simp
  | cons c cs ih =>
    intro rest acc h
    have hc : c ≠ '\n' := h c (by simp)
    simp only [List.cons_append, linesAux]
    rw [if_neg hc, show cs.append rest = cs ++ rest from rfl,
      ih rest (c :: acc) (fun x hx => h x (by simp [hx]))]
    simp

/-- Splitting the newline join of nonempty newline-free and
carriage-return-free lines recovers exactly those lines. -/
theorem rustLines_joinSep :
    ∀ (lns : List (List Char)),
      (∀ l ∈ lns, l ≠ [] ∧ ∀ c ∈ l, c ≠ '\n' ∧ c ≠ '\r') →
      rustLines (joinSep ['\n'] lns) = lns := by
  intro lns
  induction lns with
  | nil => intro _; rfl
  | cons l ls ih =>
    intro h
    obtain ⟨hlne, hlc⟩ := h l (by simp)
    have hstrip : stripTrailingCR l = l :=
      stripTrailingCR_of_not_mem l (fun hm => (hlc _ hm).2 rfl)
    cases ls with
    | nil =>
      show linesAux (joinSep ['\n'] [l]) [] = [l]
      have hj : joinSep ['\n'] [l] = l ++ [] := by simp [joinSep]
      rw [hj, linesAux_line l [] [] (fun c hc => (hlc c hc).1)]
      simp only [linesAux, List.append_nil]
      rw [if_neg (by simpa using hlne)]
      simp [hstrip]
    | cons l₂ ls₂ =>
      show linesAux (joinSep ['\n'] (l :: l₂ :: ls₂)) [] = l :: l₂ :: ls₂
      have hjoin : joinSep ['\n'] (l :: l₂ :: ls₂) =
          l ++ ('\n' :: joinSep ['\n'] (l₂ :: ls₂)) := by
        simp [joinSep]
      rw [hjoin, linesAux_line l _ [] (fun c hc => (hlc c hc).1)]
      simp only [linesAux, List.append_nil]
      rw [if_pos trivial]
      rw [show linesAux (joinSep ['\n'] (l₂ :: ls₂)) [] =
        rustLines (joinSep ['\n'] (l₂ :: ls₂)) from rfl]
      rw [ih (fun x hx => h x (by simp [hx]))]
      simp [hstrip]

example :
    TransitionTable.parse ("- 0 1 E".data) =
      some (.ok ⟨[⟨false, 0, [.Ok 1, .Err]⟩]⟩) := rfl

example :
    TransitionTable.serialize ⟨[⟨false, 0, [.Ok 1, .Err]⟩]⟩ =
      .ok ("- 0 1 E".data) := rfl

example : TransitionTable.parse ("- 12\n+ 7".data) =
    some (.ok ⟨[⟨true, 7, []⟩, ⟨false, 12, []⟩]⟩) := rfl

example : TransitionTable.parse ("".data) = some (.ok ⟨[]⟩) := rfl

example : TransitionTable.parse ("- 0\n-".data) =
    some (.error ⟨"Line 2 has too few columns".data⟩) := rfl

/-! ### The canonical line of a row and its parse -/

/-- The serialized text of a transition is a space followed by its
token. -/
theorem transitionText_eq (t : TransitionTableTransition) :
    transitionText t = ' ' :: transitionTok t := by
  cases t <;> rfl

/-- Flattened transition texts appended to a prefix form the
space-join of the prefix and the transition tokens. -/
theorem append_flatten_transitionText :
    ∀ (ts : List TransitionTableTransition) (pre : List Char),
      pre ++ (ts.map transitionText).flatten =
        joinSep [' '] (pre :: ts.map transitionTok) := by
  intro ts
  induction ts with
  | nil => intro pre; simp [joinSep]
  | cons t ts ih =>
    intro pre
    simp only [List.map_cons, List.flatten_cons, transitionText_eq]
    rw [show joinSep [' '] (pre :: transitionTok t :: ts.map transitionTok) =
      pre ++ [' '] ++ joinSep [' '] (transitionTok t :: ts.map transitionTok)
      from rfl]
    rw [← ih (transitionTok t)]
    simp

/-- A row's line is the single-space join of its tokens. -/
theorem rowText_eq_joinSep (row : TransitionTableRow) :
    rowText row = joinSep [' '] (rowTokens row) := by
  show (if row.accepting then '+' else '-') :: ' ' ::
      (natToChars row.id ++ (row.transitions.map transitionText).flatten) = _
  rw [append_flatten_transitionText row.transitions (natToChars row.id)]
  rfl

/-- Every token of a row's line is nonempty and free of whitespace,
newline and carriage-return characters. -/
theorem rowTokens_good (row : TransitionTableRow) :
    ∀ t ∈ rowTokens row,
      t ≠ [] ∧ ∀ c ∈ t,
        isRustWhitespace c = false ∧ c ≠ '\n' ∧ c ≠ '\r' := by
  intro t ht
  have hnat : ∀ (n : Nat), natToChars n ≠ [] ∧ ∀ c ∈ natToChars n,
      isRustWhitespace c = false ∧ c ≠ '\n' ∧ c ≠ '\r' := by
    intro n
    refine ⟨natToChars_ne_nil n, fun c hc => ?_⟩
    obtain ⟨d, hd, rfl⟩ := mem_natToChars n c hc
    exact ⟨(digitChar_good hd).2.2.2.1, (digitChar_good hd).2.2.2.2.1,
      (digitChar_good hd).2.2.2.2.2⟩
  rcases List.mem_cons.mp ht with h | h
  · subst h
    cases hb : row.accepting <;> simp [hb] <;> decide
  rcases List.mem_cons.mp h with h2 | h2
  · subst h2; exact hnat row.id
  obtain ⟨tr, _, rfl⟩ := List.mem_map.mp h2
  cases tr with
  | Ok n => exact hnat n
  | Err => refine ⟨by decide, ?_⟩; intro c hc; simp [transitionTok, ERROR_SYMBOL] at hc; subst hc; exact ⟨rfl, by decide, by decide⟩

/-- Tokenizing a row's canonical line yields exactly its tokens. -/
theorem splitWhitespace_rowText (row : TransitionTableRow) :
    splitWhitespace (rowText row) = rowTokens row := by
  rw [rowText_eq_joinSep]
  exact splitWhitespace_joinSep (rowTokens row)
    (fun t ht => ⟨(rowTokens_good row t ht).1,
      fun c hc => ((rowTokens_good row t ht).2 c hc).1⟩)

/-- A character of a separator-join comes from the separator or from
one of the joined lists. -/
theorem mem_joinSep :
    ∀ (sep : List Char) (ls : List (List Char)) (c : Char),
      c ∈ joinSep sep ls → c ∈ sep ∨ ∃ l ∈ ls, c ∈ l := by
  intro sep ls
  induction ls with
  | nil => intro c hc; simp [joinSep] at hc
  | cons l ls ih =>
    intro c hc
    cases ls with
    | nil =>
      right
      exact ⟨l, by simp, hc⟩
    | cons l₂ ls₂ =>
      simp only [joinSep, List.append_assoc, List.mem_append] at hc
      rcases hc with h | h | h
      · exact Or.inr ⟨l, by simp, h⟩
      · exact Or.inl h
      · rcases ih c h with h2 | ⟨t, ht, hct⟩
        · exact Or.inl h2
        · exact Or.inr ⟨t, by simp [List.mem_cons.mp ht], hct⟩

/-- A row's line is nonempty and contains neither newline nor
carriage return. -/
theorem rowText_good (row : TransitionTableRow) :
    rowText row ≠ [] ∧ ∀ c ∈ rowText row, c ≠ '\n' ∧ c ≠ '\r' := by
  constructor
  · show (if row.accepting then '+' else '-') :: _ ≠ []
    simp
  · intro c hc
    rw [rowText_eq_joinSep] at hc
    rcases mem_joinSep [' '] (rowTokens row) c hc with h | ⟨t, ht, hct⟩
    · simp at h
      subst h
      exact ⟨by decide, by decide⟩
    · exact ((rowTokens_good row t ht).2 c hct).2

/-- The line splitter recovers the rows' lines from a serialized
table. -/
theorem rustLines_serializeText (t : TransitionTable) :
    rustLines (serializeText t) = t.rows.map rowText := by
  apply rustLines_joinSep
  intro l hl
  obtain ⟨row, _, rfl⟩ := List.mem_map.mp hl
  exact rowText_good row

/-- The number of tokens on a row's line is two more than its number
of transitions. -/
theorem rowTokens_length (row : TransitionTableRow) :
    (rowTokens row).length = 2 + row.transitions.length := by
  simp [rowTokens]
  omega

/-- The accepting-state match sends the marker of `b` back to `b`. -/
theorem parseAccepting_marker (i : Nat) (b : Bool) :
    parseAccepting i (if b then '+' else '-') = .ok b := by
  cases b <;> rfl

/-- The transition loop inverts transition tokens, for any starting
column index. -/
theorem parseTransitions_tokens :
    ∀ (ts : List TransitionTableTransition) (i k : Nat),
      parseTransitions i k (ts.map transitionTok) = .ok ts := by
  intro ts
  induction ts with
  | nil => intro i k; rfl
  | cons t ts ih =>
    intro i k
    cases t with
    | Err =>
      simp only [List.map_cons, parseTransitions, transitionTok, ih,
        if_pos rfl]
      rfl
    | Ok n =>
      have hne : natToChars n ≠ ERROR_SYMBOL := by
        intro h
        have hE : 'E' ∈ natToChars n := by rw [h]; simp [ERROR_SYMBOL]
        obtain ⟨d, hd, hcd⟩ := mem_natToChars n 'E' hE
        exact (digitChar_good hd).2.1 hcd.symm
      simp only [List.map_cons, parseTransitions, transitionTok,
        if_neg hne, parseUsize_natToChars, ih]
      rfl

/-- The body of the line loop inverts a row's tokens. -/
theorem parseLineBody_rowTokens (i e : Nat) (row : TransitionTableRow) :
    parseLineBody i (rowTokens row) e = some (.ok (row, e)) := by
  simp only [rowTokens, parseLineBody, List.head?, parseAccepting_marker,
    parseUsize_natToChars, parseTransitions_tokens]

/-- Parsing a row's canonical line returns the row and its token
count, whenever the expected column count is unset or matches. -/
theorem parseLine_rowText (i : Nat) (exp : Option Nat) (row : TransitionTableRow)
    (hexp : exp = none ∨ exp = some (2 + row.transitions.length)) :
    parseLine i exp (rowText row) =
      some (.ok (row, 2 + row.transitions.length)) := by
  have hsplit : splitWhitespace (rowText row) = rowTokens row :=
    splitWhitespace_rowText row
  have hlen : (rowTokens row).length = 2 + row.transitions.length :=
    rowTokens_length row
  simp only [parseLine, hsplit, hlen]
  rw [if_neg (by omega)]
  rcases hexp with h | h
  · subst h
    rw [← hlen, parseLineBody_rowTokens]
  · subst h
    show (if 2 + row.transitions.length = 2 + row.transitions.length then
        parseLineBody i (rowTokens row) (2 + row.transitions.length)
      else some (Except.error ⟨differentColumnsMsg (i + 1)⟩)) = _
    rw [if_pos rfl, parseLineBody_rowTokens]

/-- Parsing the canonical lines of rows with a common transition
count returns exactly those rows in order. -/
theorem parseLines_rowTexts :
    ∀ (l : List TransitionTableRow) (k i : Nat) (exp : Option Nat),
      (∀ r ∈ l, r.transitions.length = k) →
      (exp = none ∨ exp = some (2 + k)) →
      parseLines i exp (l.map rowText) = some (.ok l) := by
  intro l
  induction l with
  | nil => intro k i exp _ _; rfl
  | cons r rs ih =>
    intro k i exp hc hexp
    have hr : r.transitions.length = k := hc r (by simp)
    have h1 : parseLine i exp (rowText r) = some (.ok (r, 2 + k)) := by
      rw [← hr]
      exact parseLine_rowText i exp r (by rw [hr]; exact hexp)
    simp only [List.map_cons, parseLines, h1]
    rw [ih k (i + 1) (some (2 + k)) (fun x hx => hc x (by simp [hx])) (Or.inr rfl)]

/-- `serialize`'s row loop produces the newline-join of the rows'
lines. -/
theorem serializeAux_joinSep :
    ∀ (rows : List TransitionTableRow) (i total : Nat),
      total = i + rows.length →
      serializeAux total i rows = joinSep ['\n'] (rows.map rowText) := by
  intro rows
  induction rows with
  | nil => intro i total _; rfl
  | cons r rs ih =>
    intro i total htot
    cases rs with
    | nil =>
      have hnlt : ¬ i < total - 1 := by simp at htot; omega
      simp [serializeAux, hnlt, joinSep]
    | cons r₂ rs₂ =>
      have hlt : i < total - 1 := by simp at htot; omega
      show rowText r ++ (if i < total - 1 then ['\n'] else []) ++
          serializeAux total (i + 1) (r₂ :: rs₂) = _
      rw [if_pos hlt, ih (i + 1) total (by simp at htot ⊢; omega)]
      simp [joinSep]

/-- `serialize` returns exactly the canonical text. -/
theorem serialize_eq_text (t : TransitionTable) :
    t.serialize = .ok (serializeText t) := by
  show Except.ok (serializeAux t.rows.length 0 t.rows) = _
  rw [serializeAux_joinSep t.rows 0 t.rows.length (by omega)]
  rfl

/-- Core round trip: parsing the canonical text of rows with a common
transition count succeeds and returns the stable sort of the rows. -/
theorem parse_serializeText (rows : List TransitionTableRow) (k : Nat)
    (hc : ∀ r ∈ rows, r.transitions.length = k) :
    TransitionTable.parse (serializeText ⟨rows⟩) = some (.ok ⟨sortRows rows⟩) := by
  have hlines : rustLines (serializeText ⟨rows⟩) = rows.map rowText :=
    rustLines_serializeText ⟨rows⟩
  simp only [TransitionTable.parse, hlines]
  rw [parseLines_rowTexts rows k 0 none hc (Or.inl rfl)]

/-! ### Facts about the stable sort -/

/-- The sorted rows are pairwise ordered by id. -/
theorem sortRows_sorted (l : List TransitionTableRow) :
    List.Pairwise rowLe (sortRows l) :=
  List.sorted_insertionSort rowLe l

/-- The sorted rows are a permutation of the input rows. -/
theorem sortRows_perm (l : List TransitionTableRow) :
    (sortRows l).Perm l :=
  List.perm_insertionSort rowLe l

/-- Stability: sorting does not disturb the relative order of rows
with any fixed id. -/
theorem sortRows_filter (l : List TransitionTableRow) (m : Nat) :
    (sortRows l).filter (fun r => r.id == m) =
      l.filter (fun r => r.id == m) := by
  have hall : ∀ x ∈ l.filter (fun r => r.id == m), x.id = m := by
    intro x hx
    have hpx := List.of_mem_filter hx
    simpa using hpx
  have hpair : List.Pairwise rowLe (l.filter (fun r => r.id == m)) := by
    apply List.pairwise_of_forall_mem_list
    intro a ha b hb
    show a.id ≤ b.id
    rw [hall a ha, hall b hb]
  have hsub : (l.filter (fun r => r.id == m)).Sublist (sortRows l) :=
    List.sublist_insertionSort hpair (List.filter_sublist l)
  have hsub2 : (l.filter (fun r => r.id == m)).Sublist
      ((sortRows l).filter (fun r => r.id == m)) := by
    have heq : (l.filter (fun r => r.id == m)).filter (fun r => r.id == m)
        = l.filter (fun r => r.id == m) :=
      List.filter_eq_self.mpr (fun a ha => by simpa using hall a ha)
    have hf := hsub.filter (fun r => r.id == m)
    rwa [heq] at hf
  have hlen : ((sortRows l).filter (fun r => r.id == m)).length =
      (l.filter (fun r => r.id == m)).length :=
    ((sortRows_perm l).filter _).length_eq
  exact (hsub2.eq_of_length hlen.symm).symm

/-- Two id-sorted row lists with the same per-id sublists are equal:
the output of a stable ascending sort is uniquely determined. -/
theorem sorted_eq_of_filter_eq :
    ∀ (xs ys : List TransitionTableRow),
      List.Pairwise rowLe xs → List.Pairwise rowLe ys →
      (∀ m, xs.filter (fun r => r.id == m) = ys.filter (fun r => r.id == m)) →
      xs = ys := by
  intro xs
  induction xs with
  | nil =>
    intro ys _ _ hf
    cases ys with
    | nil => rfl
    | cons y ys =>
      have h := hf y.id
      rw [List.filter_nil, List.filter_cons_of_pos (by simp)] at h
      exact absurd h (by simp)
  | cons x xs ih =>
    intro ys hx hy hf
    cases ys with
    | nil =>
      have h := hf x.id
      rw [List.filter_nil, List.filter_cons_of_pos (by simp)] at h
      exact absurd h.symm (by simp)
    | cons y ys =>
      have hxle : ∀ b ∈ xs, x.id ≤ b.id := (List.pairwise_cons.mp hx).1
      have hyle : ∀ b ∈ ys, y.id ≤ b.id := (List.pairwise_cons.mp hy).1
      have hxy : x.id ≤ y.id := by
        have h := hf y.id
        have hymem : y ∈ (x :: xs).filter (fun r => r.id == y.id) := by
          rw [h, List.filter_cons_of_pos (by simp)]
          simp
        rcases List.mem_cons.mp (List.mem_of_mem_filter hymem) with h2 | h2
        · rw [h2]
        · exact hxle y h2
      have hyx : y.id ≤ x.id := by
        have h := hf x.id
        have hxmem : x ∈ (y :: ys).filter (fun r => r.id == x.id) := by
          rw [← h, List.filter_cons_of_pos (by simp)]
          simp
        rcases List.mem_cons.mp (List.mem_of_mem_filter hxmem) with h2 | h2
        · rw [h2]
        · exact hyle x h2
      have hid : x.id = y.id := Nat.le_antisymm hxy hyx
      have h := hf x.id
      rw [List.filter_cons_of_pos (by simp),
        List.filter_cons_of_pos (by simp [hid.symm])] at h
      injection h with hxyeq htl
      subst hxyeq
      have hf2 : ∀ m, xs.filter (fun r => r.id == m) =
          ys.filter (fun r => r.id == m) := by
        intro m
        by_cases hm : x.id = m
        · subst hm; exact htl
        · have h2 := hf m
          rw [List.filter_cons_of_neg (by simp [hm]),
            List.filter_cons_of_neg (by simp [hm])] at h2
          exact h2
      rw [ih ys (List.pairwise_cons.mp hx).2 (List.pairwise_cons.mp hy).2 hf2]

/-! ### Distinctness of error messages -/

/-- An invalid-state-ID message is never an invalid-accepting-state
message, whatever the line number and inner error text. -/
theorem invalidIdMsg_ne_invalidAcceptingMsg (n : Nat) (e : List Char) :
    invalidIdMsg n e ≠ invalidAcceptingMsg n := by
  intro h
  simp only [invalidIdMsg, invalidAcceptingMsg, List.append_assoc] at h
  have h2 := List.append_cancel_left (List.append_cancel_left h)
  have h3 := congrArg (List.take 17) h2
  rw [List.take_append_of_le_length (by decide)] at h3
  exact absurd h3 (by decide)

/-- An invalid-transition message is never an invalid-accepting-state
message, whatever the numbers and inner error text. -/
theorem invalidTransitionMsg_ne_invalidAcceptingMsg (n col : Nat) (e : List Char) :
    invalidTransitionMsg n col e ≠ invalidAcceptingMsg n := by
  intro h
  simp only [invalidTransitionMsg, invalidAcceptingMsg, List.append_assoc] at h
  have h2 := List.append_cancel_left (List.append_cancel_left h)
  have h3 := congrArg (List.take 2) h2
  rw [List.take_append_of_le_length (by decide)] at h3
  exact absurd h3 (by decide)

/-! ### Unfolding equations for the line loop -/

/-- Too few columns on a line makes that line's parse fail, for any
expectation. -/
theorem parseLine_tooFew (i : Nat) (exp : Option Nat) (line : List Char)
    (h : (splitWhitespace line).length < 2) :
    parseLine i exp line = some (.error ⟨tooFewColumnsMsg (i + 1)⟩) := by
  simp [parseLine, h]

/-- With no expectation yet and enough columns, the line parse runs
the body with the line's own token count. -/
theorem parseLine_none (i : Nat) (line : List Char)
    (h : ¬ (splitWhitespace line).length < 2) :
    parseLine i none line =
      parseLineBody i (splitWhitespace line) (splitWhitespace line).length := by
  simp [parseLine, h]

/-- With a matching expectation and enough columns, the line parse
runs the body. -/
theorem parseLine_some_eq (i e : Nat) (line : List Char)
    (h : ¬ (splitWhitespace line).length < 2)
    (he : e = (splitWhitespace line).length) :
    parseLine i (some e) line = parseLineBody i (splitWhitespace line) e := by
  simp [parseLine, h, he]

/-- With a mismatched expectation and enough columns, the line parse
fails with the inconsistent-columns message. -/
theorem parseLine_some_ne (i e : Nat) (line : List Char)
    (h : ¬ (splitWhitespace line).length < 2)
    (he : e ≠ (splitWhitespace line).length) :
    parseLine i (some e) line = some (.error ⟨differentColumnsMsg (i + 1)⟩) := by
  simp [parseLine, h, he]

/-- A panicking line makes the loop panic. -/
theorem parseLines_cons_none {i : Nat} {exp : Option Nat} {line : List Char}
    {rest : List (List Char)} (hl : parseLine i exp line = none) :
    parseLines i exp (line :: rest) = none := by
  simp [parseLines, hl]

/-- A failing line makes the loop fail with that error. -/
theorem parseLines_cons_error {i : Nat} {exp : Option Nat} {line : List Char}
    {rest : List (List Char)} {e : ParseSerializeError}
    (hl : parseLine i exp line = some (.error e)) :
    parseLines i exp (line :: rest) = some (.error e) := by
  simp [parseLines, hl]

/-- A successful line prepends its row and threads its column count
through the rest of the loop. -/
theorem parseLines_cons_ok {i : Nat} {exp : Option Nat} {line : List Char}
    {rest : List (List Char)} {row : TransitionTableRow} {ne : Nat}
    (hl : parseLine i exp line = some (.ok (row, ne))) :
    parseLines i exp (line :: rest) =
      match parseLines (i + 1) (some ne) rest with
      | none => none
      | some (.error e) => some (.error e)
      | some (.ok rows) => some (.ok (row :: rows)) := by
  simp [parseLines, hl]

/-! ### Inversion facts about the parser -/

/-- The transition loop produces one transition per column. -/
theorem parseTransitions_length :
    ∀ (cols : List (List Char)) (i k : Nat) (ts : List TransitionTableTransition),
      parseTransitions i k cols = .ok ts → ts.length = cols.length := by
  intro cols
  induction cols with
  | nil =>
    intro i k ts h
    have h2 : (Except.ok [] : Except ParseSerializeError _) = .ok ts := h
    cases h2
    rfl
  | cons col cols ih =>
    intro i k ts h
    simp only [parseTransitions] at h
    by_cases hE : col = ERROR_SYMBOL
    · rw [if_pos hE] at h
      cases hrec : parseTransitions i (k + 1) cols with
      | error e =>
        rw [hrec] at h
        have h2 : (Except.error e : Except ParseSerializeError _) = .ok ts := h
        exact Except.noConfusion h2
      | ok ts2 =>
        rw [hrec] at h
        have h2 : (Except.ok (TransitionTableTransition.Err :: ts2) :
            Except ParseSerializeError _) = .ok ts := h
        cases h2
        simp [ih i (k + 1) ts2 hrec]
    · rw [if_neg hE] at h
      cases hu : parseUsize col with
      | error e =>
        rw [hu] at h
        exact Except.noConfusion h
      | ok nval =>
        rw [hu] at h
        cases hrec : parseTransitions i (k + 1) cols with
        | error e =>
          rw [hrec] at h
          have h2 : (Except.error e : Except ParseSerializeError _) = .ok ts := h
          exact Except.noConfusion h2
        | ok ts2 =>
          rw [hrec] at h
          have h2 : (Except.ok (TransitionTableTransition.Ok nval :: ts2) :
              Except ParseSerializeError _) = .ok ts := h
          cases h2
          simp [ih i (k + 1) ts2 hrec]

/-- What a successful line-body parse guarantees: the returned column
count is the one passed in, the row has one transition per column
after the first two, and the transitions come from the transition
loop started at column index 0. -/
theorem parseLineBody_ok_inv (i : Nat) (cols : List (List Char)) (e e2 : Nat)
    (row : TransitionTableRow)
    (h : parseLineBody i cols e = some (.ok (row, e2))) :
    e2 = e ∧ row.transitions.length + 2 = cols.length ∧
      parseTransitions i 0 (cols.drop 2) = .ok row.transitions := by
  rcases cols with _ | ⟨c0, _ | ⟨c1, tcols⟩⟩
  · exact absurd h (by simp [parseLineBody])
  · exact absurd h (by simp [parseLineBody])
  · rcases c0 with _ | ⟨ch, c0rest⟩
    · exact absurd h (by simp [parseLineBody])
    · simp only [parseLineBody, List.head?] at h
      cases ha : parseAccepting i ch with
      | error err => rw [ha] at h; simp at h
      | ok b =>
        rw [ha] at h
        cases hu : parseUsize c1 with
        | error err => rw [hu] at h; simp at h
        | ok nid =>
          rw [hu] at h
          cases ht : parseTransitions i 0 tcols with
          | error err => rw [ht] at h; simp at h
          | ok ts =>
            rw [ht] at h
            have h2 : some (Except.ok ((⟨b, nid, ts⟩ : TransitionTableRow), e) :
                Except ParseSerializeError _) = some (.ok (row, e2)) := h
            simp only [Option.some.injEq, Except.ok.injEq, Prod.mk.injEq] at h2
            obtain ⟨hrow, he⟩ := h2
            subst he
            refine ⟨rfl, ?_, ?_⟩
            · rw [← hrow]
              simp [parseTransitions_length tcols i 0 ts ht]
            · rw [← hrow]
              exact ht

/-- What a successful line parse guarantees: the returned expected
count is the line's token count, the row has token count minus two
transitions, any incoming expectation equals the token count, and the
transitions come from the tokens after the first two. -/
theorem parseLine_ok_inv (i : Nat) (exp : Option Nat) (line : List Char)
    (row : TransitionTableRow) (e2 : Nat)
    (h : parseLine i exp line = some (.ok (row, e2))) :
    e2 = (splitWhitespace line).length ∧
      row.transitions.length + 2 = (splitWhitespace line).length ∧
      (∀ e, exp = some e → e = (splitWhitespace line).length) ∧
      parseTransitions i 0 ((splitWhitespace line).drop 2) = .ok row.transitions := by
  by_cases hlen : (splitWhitespace line).length < 2
  · rw [parseLine_tooFew i exp line hlen] at h
    simp at h
  · cases exp with
    | none =>
      rw [parseLine_none i line hlen] at h
      obtain ⟨he, hlen2, ht⟩ := parseLineBody_ok_inv i _ _ _ _ h
      exact ⟨he, hlen2, fun e he2 => Option.noConfusion he2, ht⟩
    | some e =>
      by_cases heq : e = (splitWhitespace line).length
      · rw [parseLine_some_eq i e line hlen heq] at h
        obtain ⟨he, hlen2, ht⟩ := parseLineBody_ok_inv i _ _ _ _ h
        refine ⟨he.trans heq, hlen2, ?_, ht⟩
        intro e3 he3
        cases he3
        exact heq
      · rw [parseLine_some_ne i e line hlen heq] at h
        simp at h

/-- Every row collected under a fixed expected column count has that
count. -/
theorem parseLines_expected :
    ∀ (lns : List (List Char)) (i e : Nat) (rows : List TransitionTableRow),
      parseLines i (some e) lns = some (.ok rows) →
      ∀ r ∈ rows, r.transitions.length + 2 = e := by
  intro lns
  induction lns with
  | nil =>
    intro i e rows h r hr
    have h2 : some (Except.ok ([] : List TransitionTableRow) :
        Except ParseSerializeError _) = some (.ok rows) := h
    simp only [Option.some.injEq, Except.ok.injEq] at h2
    subst h2
    simp at hr
  | cons line rest ih =>
    intro i e rows h r hr
    cases hl : parseLine i (some e) line with
    | none => rw [parseLines_cons_none hl] at h; exact Option.noConfusion h
    | some res =>
      cases res with
      | error err =>
        rw [parseLines_cons_error hl] at h
        simp at h
      | ok rn =>
        rcases rn with ⟨r0, ne⟩
        rw [parseLines_cons_ok hl] at h
        obtain ⟨hne, hr0len, hexp, _⟩ := parseLine_ok_inv i (some e) line r0 ne hl
        have hee : e = (splitWhitespace line).length := hexp e rfl
        cases hrec : parseLines (i + 1) (some ne) rest with
        | none => rw [hrec] at h; exact Option.noConfusion h
        | some res2 =>
          rw [hrec] at h
          cases res2 with
          | error err => simp at h
          | ok rows2 =>
            have h2 : some (Except.ok (r0 :: rows2) :
                Except ParseSerializeError _) = some (.ok rows) := h
            simp only [Option.some.injEq, Except.ok.injEq] at h2
            subst h2
            rcases List.mem_cons.mp hr with hr1 | hr1
            · subst hr1; omega
            · have hlen2 := ih (i + 1) ne rows2 hrec r hr1
              omega

/-- Every row of a successfully parsed table has one transition per
column of the first line, beyond the first two. -/
theorem parse_ok_rows (input : List Char) (t : TransitionTable)
    (h : TransitionTable.parse input = some (.ok t)) :
    ∀ r ∈ t.rows, r.transitions.length + 2 =
      (splitWhitespace ((rustLines input).headD [])).length := by
  intro r hr
  simp only [TransitionTable.parse] at h
  cases hpl : parseLines 0 none (rustLines input) with
  | none => rw [hpl] at h; simp at h
  | some res =>
    rw [hpl] at h
    cases res with
    | error e => simp at h
    | ok rows =>
      have h2 : some (Except.ok (⟨sortRows rows⟩ : TransitionTable) :
          Except ParseSerializeError _) = some (.ok t) := h
      simp only [Option.some.injEq, Except.ok.injEq] at h2
      subst h2
      have hmem : r ∈ rows := by
        have hmi := List.mem_insertionSort rowLe (l := rows) (x := r)
        exact hmi.mp (by simpa [sortRows] using hr)
      cases hlines : rustLines input with
      | nil =>
        rw [hlines] at hpl
        have h3 : some (Except.ok ([] : List TransitionTableRow) :
            Except ParseSerializeError _) = some (.ok rows) := hpl
        simp only [Option.some.injEq, Except.ok.injEq] at h3
        subst h3
        simp at hmem
      | cons l0 rest =>
        rw [hlines] at hpl
        cases hl : parseLine 0 none l0 with
        | none => rw [parseLines_cons_none hl] at hpl; exact Option.noConfusion hpl
        | some res =>
          cases res with
          | error err =>
            rw [parseLines_cons_error hl] at hpl
            simp at hpl
          | ok rn =>
            rcases rn with ⟨r0, ne⟩
            rw [parseLines_cons_ok hl] at hpl
            obtain ⟨hne, hr0len, _, _⟩ := parseLine_ok_inv 0 none l0 r0 ne hl
            cases hrec : parseLines 1 (some ne) rest with
            | none => rw [hrec] at hpl; exact Option.noConfusion hpl
            | some res2 =>
              rw [hrec] at hpl
              cases res2 with
              | error err => simp at hpl
              | ok rows2 =>
                have h3 : some (Except.ok (r0 :: rows2) :
                    Except ParseSerializeError _) = some (.ok rows) := hpl
                simp only [Option.some.injEq, Except.ok.injEq] at h3
                subst h3
                rcases List.mem_cons.mp hmem with hr1 | hr1
                · subst hr1
                  simp only [List.headD_cons]
                  omega
                · have hlen2 := parseLines_expected rest 1 ne rows2 hrec r hr1
                  simp only [List.headD_cons]
                  omega

/-! ### The parser never panics -/

/-- The line body always returns a value when there are at least two
columns and every token is nonempty. -/
theorem parseLineBody_isSome (i e : Nat) (cols : List (List Char))
    (hlen : 2 ≤ cols.length) (hne : ∀ tok ∈ cols, tok ≠ []) :
    ∃ res, parseLineBody i cols e = some res := by
  rcases cols with _ | ⟨c0, _ | ⟨c1, tcols⟩⟩
  · simp at hlen
  · simp at hlen
  · have hc0 : c0 ≠ [] := hne c0 (by simp)
    rcases c0 with _ | ⟨ch, c0rest⟩
    · exact absurd rfl hc0
    · simp only [parseLineBody, List.head?]
      cases parseAccepting i ch with
      | error err => exact ⟨_, rfl⟩
      | ok b =>
        cases parseUsize c1 with
        | error e3 => exact ⟨_, rfl⟩
        | ok nid =>
          cases parseTransitions i 0 tcols with
          | error err => exact ⟨_, rfl⟩
          | ok ts => exact ⟨_, rfl⟩

/-- A line parse always returns a value: the `unwrap` (and the column
indexing) cannot fire, because tokens are nonempty and the
too-few-columns check runs first. -/
theorem parseLine_isSome (i : Nat) (exp : Option Nat) (line : List Char) :
    ∃ res, parseLine i exp line = some res := by
  by_cases hlen : (splitWhitespace line).length < 2
  · exact ⟨_, parseLine_tooFew i exp line hlen⟩
  · have h2 : 2 ≤ (splitWhitespace line).length := by omega
    have hne := splitWhitespace_ne_nil line
    cases exp with
    | none =>
      rw [parseLine_none i line hlen]
      exact parseLineBody_isSome i _ _ h2 hne
    | some e =>
      by_cases heq : e = (splitWhitespace line).length
      · rw [parseLine_some_eq i e line hlen heq]
        exact parseLineBody_isSome i e _ h2 hne
      · exact ⟨_, parseLine_some_ne i e line hlen heq⟩

/-- The line loop always returns a value. -/
theorem parseLines_isSome :
    ∀ (lns : List (List Char)) (i : Nat) (exp : Option Nat),
      ∃ res, parseLines i exp lns = some res := by
  intro lns
  induction lns with
  | nil => intro i exp; exact ⟨_, rfl⟩
  | cons line rest ih =>
    intro i exp
    obtain ⟨res, hres⟩ := parseLine_isSome i exp line
    cases res with
    | error e => exact ⟨_, parseLines_cons_error hres⟩
    | ok rn =>
      rcases rn with ⟨row, ne⟩
      rw [parseLines_cons_ok hres]
      obtain ⟨res2, hres2⟩ := ih (i + 1) (some ne)
      rw [hres2]
      cases res2 with
      | error e => exact ⟨_, rfl⟩
      | ok rows => exact ⟨_, rfl⟩

/-- The parser always returns a value: no panic on any input. -/
theorem parse_isSome (input : List Char) :
    ∃ res, TransitionTable.parse input = some res := by
  obtain ⟨res, hres⟩ := parseLines_isSome (rustLines input) 0 none
  simp only [TransitionTable.parse, hres]
  cases res with
  | error e => exact ⟨_, rfl⟩
  | ok rows => exact ⟨_, rfl⟩

/-! ### The accepting-state check -/

/-- Any first character other than the two markers yields the
invalid-accepting-state error. -/
theorem parseAccepting_other (i : Nat) (ch : Char) (h1 : ch ≠ '+')
    (h2 : ch ≠ '-') :
    parseAccepting i ch = .error ⟨invalidAcceptingMsg (i + 1)⟩ := by
  unfold parseAccepting
  split
  · exact absurd rfl h1
  · exact absurd rfl h2
  · rfl

/-- A successful accepting-state check returns exactly whether the
character was the plus marker. -/
theorem parseAccepting_ok_inv (i : Nat) (ch : Char) (b : Bool)
    (h : parseAccepting i ch = .ok b) : b = (ch == '+') := by
  revert h
  unfold parseAccepting
  split
  · intro h
    have h2 : (Except.ok true : Except ParseSerializeError Bool) = .ok b := h
    cases h2
    decide
  · intro h
    have h2 : (Except.ok false : Except ParseSerializeError Bool) = .ok b := h
    cases h2
    decide
  · intro h
    exact Except.noConfusion h

/-- A marker character always passes the accepting-state check. -/
theorem parseAccepting_marker_ok (i : Nat) (ch : Char)
    (h : ch = '+' ∨ ch = '-') : ∃ b, parseAccepting i ch = .ok b := by
  rcases h with h | h <;> subst h
  · exact ⟨true, rfl⟩
  · exact ⟨false, rfl⟩

/-- Every error of the transition loop is an invalid-transition
message. -/
theorem parseTransitions_error_shape :
    ∀ (cols : List (List Char)) (i k : Nat) (err : ParseSerializeError),
      parseTransitions i k cols = .error err →
      ∃ k2 e, err = ⟨invalidTransitionMsg (i + 1) (k2 + 3) e⟩ := by
  intro cols
  induction cols with
  | nil =>
    intro i k err h
    exact Except.noConfusion h
  | cons col cols ih =>
    intro i k err h
    simp only [parseTransitions] at h
    by_cases hE : col = ERROR_SYMBOL
    · rw [if_pos hE] at h
      cases hrec : parseTransitions i (k + 1) cols with
      | error e2 =>
        rw [hrec] at h
        have h2 : (Except.error e2 : Except ParseSerializeError
            (List TransitionTableTransition)) = .error err := h
        cases h2
        exact ih i (k + 1) _ hrec
      | ok ts =>
        rw [hrec] at h
        have h2 : (Except.ok (TransitionTableTransition.Err :: ts) :
            Except ParseSerializeError _) = .error err := h
        exact Except.noConfusion h2
    · rw [if_neg hE] at h
      cases hu : parseUsize col with
      | error e2 =>
        rw [hu] at h
        have h2 : (Except.error ⟨invalidTransitionMsg (i + 1) (k + 3) e2⟩ :
            Except ParseSerializeError (List TransitionTableTransition))
            = .error err := h
        cases h2
        exact ⟨k, e2, rfl⟩
      | ok nval =>
        rw [hu] at h
        cases hrec : parseTransitions i (k + 1) cols with
        | error e2 =>
          rw [hrec] at h
          have h2 : (Except.error e2 : Except ParseSerializeError
              (List TransitionTableTransition)) = .error err := h
          cases h2
          exact ih i (k + 1) _ hrec
        | ok ts =>
          rw [hrec] at h
          have h2 : (Except.ok (TransitionTableTransition.Ok nval :: ts) :
              Except ParseSerializeError _) = .error err := h
          exact Except.noConfusion h2

/-- How the line body treats the first character of column 0: a
non-marker first character gives the invalid-accepting-state error; a
successful parse records whether it was `+`; a marker first character
never produces the invalid-accepting-state error. -/
theorem parseLineBody_marker (i e : Nat) (ch : Char) (c0rest c1 : List Char)
    (tcols : List (List Char)) :
    (ch ≠ '+' → ch ≠ '-' →
      parseLineBody i ((ch :: c0rest) :: c1 :: tcols) e =
        some (.error ⟨invalidAcceptingMsg (i + 1)⟩)) ∧
    (∀ row e2, parseLineBody i ((ch :: c0rest) :: c1 :: tcols) e =
        some (.ok (row, e2)) → row.accepting = (ch == '+')) ∧
    ((ch = '+' ∨ ch = '-') →
      parseLineBody i ((ch :: c0rest) :: c1 :: tcols) e ≠
        some (.error ⟨invalidAcceptingMsg (i + 1)⟩)) := by
  refine ⟨?_, ?_, ?_⟩
  · intro h1 h2
    simp only [parseLineBody, List.head?]
    rw [parseAccepting_other i ch h1 h2]
  · intro row e2 h
    simp only [parseLineBody, List.head?] at h
    cases ha : parseAccepting i ch with
    | error err => rw [ha] at h; simp at h
    | ok b =>
      rw [ha] at h
      cases hu : parseUsize c1 with
      | error err => rw [hu] at h; simp at h
      | ok nid =>
        rw [hu] at h
        cases ht : parseTransitions i 0 tcols with
        | error err => rw [ht] at h; simp at h
        | ok ts =>
          rw [ht] at h
          have h2 : some (Except.ok ((⟨b, nid, ts⟩ : TransitionTableRow), e) :
              Except ParseSerializeError _) = some (.ok (row, e2)) := h
          simp only [Option.some.injEq, Except.ok.injEq, Prod.mk.injEq] at h2
          rw [← h2.1]
          exact parseAccepting_ok_inv i ch b ha
  · intro hor h
    obtain ⟨b, hb⟩ := parseAccepting_marker_ok i ch hor
    simp only [parseLineBody, List.head?] at h
    rw [hb] at h
    cases hu : parseUsize c1 with
    | error err =>
      rw [hu] at h
      have h2 : some (Except.error (⟨invalidIdMsg (i + 1) err⟩ :
          ParseSerializeError) : Except ParseSerializeError
          (TransitionTableRow × Nat)) =
          some (.error ⟨invalidAcceptingMsg (i + 1)⟩) := h
      simp only [Option.some.injEq, Except.error.injEq,
        ParseSerializeError.mk.injEq] at h2
      exact invalidIdMsg_ne_invalidAcceptingMsg (i + 1) err h2
    | ok nid =>
      rw [hu] at h
      cases ht : parseTransitions i 0 tcols with
      | error err =>
        rw [ht] at h
        have h2 : some (Except.error err : Except ParseSerializeError
            (TransitionTableRow × Nat)) =
            some (.error ⟨invalidAcceptingMsg (i + 1)⟩) := h
        simp only [Option.some.injEq, Except.error.injEq] at h2
        obtain ⟨k2, e3, hshape⟩ := parseTransitions_error_shape tcols i 0 err ht
        rw [hshape] at h2
        have h3 : invalidTransitionMsg (i + 1) (k2 + 3) e3 =
            invalidAcceptingMsg (i + 1) := by
          have := congrArg ParseSerializeError.message h2
          simpa using this
        exact invalidTransitionMsg_ne_invalidAcceptingMsg (i + 1) (k2 + 3) e3 h3
      | ok ts =>
        rw [ht] at h
        have h2 : some (Except.ok ((⟨b, nid, ts⟩ : TransitionTableRow), e) :
            Except ParseSerializeError _) =
            some (.error ⟨invalidAcceptingMsg (i + 1)⟩) := h
        simp at h2

/-- How the line parser treats the first character of column 0, for a
line reached with at least two tokens and a consistent count: a first
character other than the markers gives the invalid-accepting-state
error; a successful parse records whether it was `+`; a marker first
character never produces the invalid-accepting-state error. -/
theorem parseLine_marker_first_char (i : Nat) (exp : Option Nat)
    (line : List Char) (c0 : List Char) (cs : List (List Char)) (ch : Char)
    (hcols : splitWhitespace line = c0 :: cs)
    (hlen : 2 ≤ (splitWhitespace line).length)
    (hexp : exp = none ∨ exp = some (splitWhitespace line).length)
    (hch : c0.head? = some ch) :
    (ch ≠ '+' → ch ≠ '-' →
      parseLine i exp line = some (.error ⟨invalidAcceptingMsg (i + 1)⟩)) ∧
    (∀ row e2, parseLine i exp line = some (.ok (row, e2)) →
      row.accepting = (ch == '+')) ∧
    ((ch = '+' ∨ ch = '-') →
      parseLine i exp line ≠ some (.error ⟨invalidAcceptingMsg (i + 1)⟩)) := by
  have hnl : ¬ (splitWhitespace line).length < 2 := by omega
  obtain ⟨eStar, hpl⟩ : ∃ eStar, parseLine i exp line =
      parseLineBody i (splitWhitespace line) eStar := by
    rcases hexp with h | h
    · subst h; exact ⟨_, parseLine_none i line hnl⟩
    · subst h; exact ⟨_, parseLine_some_eq i _ line hnl rfl⟩
  rcases cs with _ | ⟨c1, tcols⟩
  · rw [hcols] at hlen; simp at hlen
  · rcases c0 with _ | ⟨ch0, c0rest⟩
    · simp at hch
    · have hch0 : ch0 = ch := by simpa using hch
      subst hch0
      rw [hcols] at hpl
      have hm := parseLineBody_marker i eStar ch0 c0rest c1 tcols
      refine ⟨fun h1 h2 => by rw [hpl]; exact hm.1 h1 h2,
        fun row e2 h => hm.2.1 row e2 (by rw [← hpl]; exact h),
        fun hor h => hm.2.2 hor (by rw [← hpl]; exact h)⟩

/-! ### The claims -/

/-- C1: for every well-formed input text whose rows are already sorted
ascending by id, whose token counts are consistent across lines, and
whose tokens are in canonical form separated by single spaces,
serializing the result of parsing the text returns exactly the text:
`serialize(parse(s)) = s`. -/
theorem roundtripA_serialize_parse (s : List Char)
    (h : isCanonicalSortedText s) :
    ∃ t, TransitionTable.parse s = some (.ok t) ∧ t.serialize = .ok s := by
  obtain ⟨rows, k, hc, hsorted, rfl⟩ := h
  have hparse := parse_serializeText rows k hc
  have hsort : sortRows rows = rows := List.Sorted.insertionSort_eq hsorted
  refine ⟨⟨rows⟩, ?_, serialize_eq_text ⟨rows⟩⟩
  rw [hparse, hsort]

theorem roundtripA_serialize_parse_witness :
    ∃ t, TransitionTable.parse (serializeText providedTable) = some (.ok t) ∧
      t.serialize = .ok (serializeText providedTable) :=
  roundtripA_serialize_parse (serializeText providedTable)
    ⟨providedTable.rows, 5, by decide, by decide, rfl⟩

/-- C2 counterexample: on input `+x 0`, token 0 of line 1 is `+x` —
not exactly the single character `+` or `-` — yet parse succeeds with
accepting true instead of returning an invalid-accepting-state
error. -/
theorem accepting_token_counterexample :
    TransitionTable.parse ("+x 0".data) = some (.ok ⟨[⟨true, 0, []⟩]⟩) ∧
    (splitWhitespace ((rustLines ("+x 0".data)).headD [])).headD []
      = "+x".data ∧
    "+x".data ≠ "+".data ∧ "+x".data ≠ "-".data :=
  ⟨rfl, rfl, by decide, by decide⟩

/-- C2 amended: parse decides the accepting column by the FIRST
character of token 0 alone (the rest of the token is ignored): on a
line reached with at least two tokens of consistent count, a first
character `+` yields accepting true and `-` accepting false, while any
other first character makes the line's parse fail with the
invalid-accepting-state error naming the 1-based line number; the
invalid-accepting-state error is never produced when the first
character is a marker. -/
theorem accepting_first_char_decides (i : Nat) (exp : Option Nat)
    (line : List Char) (c0 : List Char) (cs : List (List Char)) (ch : Char)
    (hcols : splitWhitespace line = c0 :: cs)
    (hlen : 2 ≤ (splitWhitespace line).length)
    (hexp : exp = none ∨ exp = some (splitWhitespace line).length)
    (hch : c0.head? = some ch) :
    (ch ≠ '+' → ch ≠ '-' →
      parseLine i exp line = some (.error ⟨invalidAcceptingMsg (i + 1)⟩)) ∧
    (∀ row e2, parseLine i exp line = some (.ok (row, e2)) →
      row.accepting = (ch == '+')) ∧
    ((ch = '+' ∨ ch = '-') →
      parseLine i exp line ≠ some (.error ⟨invalidAcceptingMsg (i + 1)⟩)) :=
  parseLine_marker_first_char i exp line c0 cs ch hcols hlen hexp hch

theorem accepting_first_char_decides_witness :
    parseLine 0 none ("? 0".data) = some (.error ⟨invalidAcceptingMsg 1⟩) :=
  (accepting_first_char_decides 0 none ("? 0".data) ("?".data) ["0".data] '?'
    rfl (by decide) (Or.inl rfl) rfl).1 (by decide) (by decide)

/-- C3: for every table whose rows all have the same number of
transitions, serializing succeeds and re-parsing the output succeeds,
returning the rows reordered by the stable ascending id sort: the
result is sorted by id, is a permutation of the original rows, and
rows with any fixed id keep their relative order. -/
theorem roundtripB_parse_serialize (t : TransitionTable) (k : Nat)
    (hc : ∀ r ∈ t.rows, r.transitions.length = k) :
    ∃ s, t.serialize = .ok s ∧
      TransitionTable.parse s = some (.ok ⟨sortRows t.rows⟩) ∧
      List.Pairwise rowLe (sortRows t.rows) ∧
      (sortRows t.rows).Perm t.rows ∧
      (∀ m, (sortRows t.rows).filter (fun r => r.id == m) =
        t.rows.filter (fun r => r.id == m)) :=
  ⟨serializeText t, serialize_eq_text t, parse_serializeText t.rows k hc,
    sortRows_sorted t.rows, sortRows_perm t.rows,
    fun m => sortRows_filter t.rows m⟩

theorem roundtripB_parse_serialize_witness :
    ∃ s, (⟨[⟨false, 1, [.Err]⟩, ⟨true, 0, [.Ok 2]⟩]⟩ :
        TransitionTable).serialize = .ok s ∧
      TransitionTable.parse s =
        some (.ok ⟨sortRows [⟨false, 1, [.Err]⟩, ⟨true, 0, [.Ok 2]⟩]⟩) ∧
      List.Pairwise rowLe (sortRows [⟨false, 1, [.Err]⟩, ⟨true, 0, [.Ok 2]⟩]) ∧
      (sortRows [⟨false, 1, [.Err]⟩, ⟨true, 0, [.Ok 2]⟩]).Perm
        [⟨false, 1, [.Err]⟩, ⟨true, 0, [.Ok 2]⟩] ∧
      (∀ m, (sortRows [⟨false, 1, [.Err]⟩, ⟨true, 0, [.Ok 2]⟩]).filter
          (fun r => r.id == m) =
        ([⟨false, 1, [.Err]⟩, ⟨true, 0, [.Ok 2]⟩] :
          List TransitionTableRow).filter (fun r => r.id == m)) :=
  roundtripB_parse_serialize ⟨[⟨false, 1, [.Err]⟩, ⟨true, 0, [.Ok 2]⟩]⟩ 1
    (by decide)

/-- C4: rows with a common transition count, presented as input lines
in any permutation, parse to a table sorted ascending by id with
equal-id rows keeping their relative input order and duplicates kept;
two permutations agreeing on the relative order of equal-id rows (the
same per-id subsequences) parse to identical tables. -/
theorem parse_permutation_stable (l l2 : List TransitionTableRow) (k : Nat)
    (hc : ∀ r ∈ l, r.transitions.length = k)
    (hperm : l2.Perm l)
    (hfilter : ∀ m, l2.filter (fun r => r.id == m) =
      l.filter (fun r => r.id == m)) :
    TransitionTable.parse (serializeText ⟨l⟩) = some (.ok ⟨sortRows l⟩) ∧
    TransitionTable.parse (serializeText ⟨l2⟩) = some (.ok ⟨sortRows l2⟩) ∧
    sortRows l2 = sortRows l ∧
    List.Pairwise rowLe (sortRows l) ∧
    (sortRows l).Perm l ∧
    (∀ m, (sortRows l).filter (fun r => r.id == m) =
      l.filter (fun r => r.id == m)) := by
  have hc2 : ∀ r ∈ l2, r.transitions.length = k :=
    fun r hr => hc r (hperm.mem_iff.mp hr)
  refine ⟨parse_serializeText l k hc, parse_serializeText l2 k hc2, ?_,
    sortRows_sorted l, sortRows_perm l, fun m => sortRows_filter l m⟩
  apply sorted_eq_of_filter_eq _ _ (sortRows_sorted l2) (sortRows_sorted l)
  intro m
  rw [sortRows_filter, sortRows_filter, hfilter m]

theorem parse_permutation_stable_witness :
    TransitionTable.parse (serializeText ⟨[⟨false, 1, [.Err]⟩,
        ⟨true, 0, [.Err]⟩, ⟨false, 1, [.Ok 0]⟩]⟩) =
      some (.ok ⟨sortRows [⟨false, 1, [.Err]⟩, ⟨true, 0, [.Err]⟩,
        ⟨false, 1, [.Ok 0]⟩]⟩) ∧
    TransitionTable.parse (serializeText ⟨[⟨true, 0, [.Err]⟩,
        ⟨false, 1, [.Err]⟩, ⟨false, 1, [.Ok 0]⟩]⟩) =
      some (.ok ⟨sortRows [⟨true, 0, [.Err]⟩, ⟨false, 1, [.Err]⟩,
        ⟨false, 1, [.Ok 0]⟩]⟩) ∧
    sortRows [⟨true, 0, [.Err]⟩, ⟨false, 1, [.Err]⟩, ⟨false, 1, [.Ok 0]⟩] =
      sortRows [⟨false, 1, [.Err]⟩, ⟨true, 0, [.Err]⟩, ⟨false, 1, [.Ok 0]⟩] ∧
    List.Pairwise rowLe (sortRows [⟨false, 1, [.Err]⟩, ⟨true, 0, [.Err]⟩,
      ⟨false, 1, [.Ok 0]⟩]) ∧
    (sortRows [⟨false, 1, [.Err]⟩, ⟨true, 0, [.Err]⟩,
      ⟨false, 1, [.Ok 0]⟩]).Perm
      [⟨false, 1, [.Err]⟩, ⟨true, 0, [.Err]⟩, ⟨false, 1, [.Ok 0]⟩] ∧
    (∀ m, (sortRows [⟨false, 1, [.Err]⟩, ⟨true, 0, [.Err]⟩,
        ⟨false, 1, [.Ok 0]⟩]).filter (fun r => r.id == m) =
      ([⟨false, 1, [.Err]⟩, ⟨true, 0, [.Err]⟩, ⟨false, 1, [.Ok 0]⟩] :
        List TransitionTableRow).filter (fun r => r.id == m)) :=
  parse_permutation_stable
    [⟨false, 1, [.Err]⟩, ⟨true, 0, [.Err]⟩, ⟨false, 1, [.Ok 0]⟩]
    [⟨true, 0, [.Err]⟩, ⟨false, 1, [.Err]⟩, ⟨false, 1, [.Ok 0]⟩]
    1 (by decide) (by decide)
    (by
      intro m
      by_cases h1 : (1 : Nat) = m
      · subst h1; rfl
      · by_cases h0 : (0 : Nat) = m
        · subst h0; rfl
        · have e1 : ((1 : Nat) == m) = false := by simp [h1]
          have e0 : ((0 : Nat) == m) = false := by simp [h0]
          simp [List.filter_cons, e1, e0])

/-- C5: parse is a total function that never panics: on every input,
including arbitrary malformed text, it returns a value (`some` of an
ok table or of a structured error), never the panic outcome `none`;
in particular every token the tokenizer produces is nonempty, so the
`unwrap` on the first character of column 0 cannot fire once a line
has at least two tokens. -/
theorem parse_never_panics :
    (∀ input : List Char, ∃ res, TransitionTable.parse input = some res) ∧
    (∀ cs : List Char, ∀ t ∈ splitWhitespace cs, t ≠ []) :=
  ⟨parse_isSome, splitWhitespace_ne_nil⟩

/-- C6 counterexample: on input `- 0 1` then `x`, line 2's token count
(one) differs from the first line's (three), but parse reports the
too-few-columns error for line 2, not the different-number-of-columns
error the claim requires for every differing line. -/
theorem column_mismatch_counterexample :
    TransitionTable.parse ("- 0 1\nx".data) =
      some (.error ⟨"Line 2 has too few columns".data⟩) ∧
    (splitWhitespace ("x".data)).length = 1 ∧
    (splitWhitespace ("- 0 1".data)).length = 3 ∧
    ("Line 2 has too few columns".data : List Char) ≠
      "Line 2 has a different number of columns than the previous lines".data :=
  ⟨rfl, rfl, rfl, by decide⟩

/-- C6 amended: when the line loop reaches a line with at least two
tokens whose count differs from the expected count fixed by the first
line, it fails with the different-number-of-columns error naming that
line's 1-based number (a line with fewer than two tokens gets the
too-few-columns error instead, and an earlier line's error preempts);
and every successfully parsed table has all rows with the same number
of transitions: the first line's token count minus two. -/
theorem column_count_invariant :
    (∀ (i e : Nat) (line : List Char),
      2 ≤ (splitWhitespace line).length →
      e ≠ (splitWhitespace line).length →
      parseLine i (some e) line =
        some (.error ⟨differentColumnsMsg (i + 1)⟩)) ∧
    (∀ (input : List Char) (t : TransitionTable),
      TransitionTable.parse input = some (.ok t) →
      ∀ r ∈ t.rows, r.transitions.length + 2 =
        (splitWhitespace ((rustLines input).headD [])).length) :=
  ⟨fun i e line hlen hne => parseLine_some_ne i e line (by omega) hne,
   parse_ok_rows⟩

theorem column_count_invariant_witness :
    parseLine 1 (some 3) ("- 0".data) =
      some (.error ⟨differentColumnsMsg 2⟩) ∧
    (∀ r ∈ (⟨[⟨false, 0, [.Ok 1]⟩, ⟨false, 1, [.Ok 2]⟩]⟩ :
        TransitionTable).rows,
      r.transitions.length + 2 =
        (splitWhitespace ((rustLines ("- 0 1\n- 1 2".data)).headD [])).length) :=
  ⟨column_count_invariant.1 1 3 ("- 0".data) (by decide) (by decide),
   column_count_invariant.2 ("- 0 1\n- 1 2".data) _ rfl⟩

/-- C7: in the transition loop — which the line parser runs on the
tokens from column index 2 on, starting at transition index 0, so
that the first transition column is reported as column 3 — the
sentinel `E` is checked before any numeric parse and yields an error
transition; otherwise a token accepted by the unsigned-integer parser
as `n` yields a goto to `n`; otherwise the loop fails with the
invalid-transition error naming the 1-based line number and column
`k + 3` for 0-based transition index `k`. A successful line parse
takes its transitions from exactly the tokens after the first two. -/
theorem transition_token_cases (i k : Nat) (col : List Char)
    (cols : List (List Char)) :
    (col = ERROR_SYMBOL →
      parseTransitions i k (col :: cols) =
        (parseTransitions i (k + 1) cols).map
          (TransitionTableTransition.Err :: ·)) ∧
    (col ≠ ERROR_SYMBOL → ∀ n, parseUsize col = .ok n →
      parseTransitions i k (col :: cols) =
        (parseTransitions i (k + 1) cols).map
          (TransitionTableTransition.Ok n :: ·)) ∧
    (col ≠ ERROR_SYMBOL → ∀ e, parseUsize col = .error e →
      parseTransitions i k (col :: cols) =
        .error ⟨invalidTransitionMsg (i + 1) (k + 3) e⟩) ∧
    (∀ (exp : Option Nat) (line : List Char) (row : TransitionTableRow)
        (e2 : Nat),
      parseLine i exp line = some (.ok (row, e2)) →
      parseTransitions i 0 ((splitWhitespace line).drop 2) =
        .ok row.transitions) := by
  refine ⟨?_, ?_, ?_, ?_⟩
  · intro hE; simp [parseTransitions, hE]
  · intro hE n hn; simp [parseTransitions, hE, hn]
  · intro hE e he; simp [parseTransitions, hE, he]
  · intro exp line row e2 h
    exact (parseLine_ok_inv i exp line row e2 h).2.2.2

theorem transition_token_cases_witness :
    parseTransitions 0 0 [ERROR_SYMBOL] =
      (parseTransitions 0 1 []).map (TransitionTableTransition.Err :: ·) ∧
    parseTransitions 0 0 ["5".data] =
      (parseTransitions 0 1 []).map (TransitionTableTransition.Ok 5 :: ·) ∧
    parseTransitions 0 0 ["x".data] =
      .error ⟨invalidTransitionMsg 1 3 invalidDigitError⟩ :=
  ⟨(transition_token_cases 0 0 ERROR_SYMBOL []).1 rfl,
   (transition_token_cases 0 0 ("5".data) []).2.1 (by decide) 5 rfl,
   (transition_token_cases 0 0 ("x".data) []).2.2.1 (by decide)
     invalidDigitError rfl⟩

/-- C8 counterexample: input `? 0` then `x` contains a line (line 2,
the first such line) splitting into fewer than two tokens, but parse
reports line 1's invalid-accepting-state error, not a
too-few-columns error naming line 2. -/
theorem too_few_columns_counterexample :
    TransitionTable.parse ("? 0\nx".data) =
      some (.error ⟨"Line 1 has an invalid accepting state".data⟩) ∧
    (splitWhitespace ("x".data)).length < 2 ∧
    2 ≤ (splitWhitespace ("? 0".data)).length ∧
    ("Line 1 has an invalid accepting state".data : List Char) ≠
      "Line 2 has too few columns".data :=
  ⟨rfl, by decide, by decide, by decide⟩

/-- C8 amended: a line splitting into fewer than two
whitespace-delimited tokens fails, when the loop reaches it, with the
too-few-columns error naming its 1-based number, whatever the current
expectation (an earlier line's error preempts); if the FIRST line has
fewer than two tokens, parse always reports line 1; and `- 0` (two
tokens) parses successfully. -/
theorem too_few_columns_error :
    (∀ (i : Nat) (exp : Option Nat) (line : List Char),
      (splitWhitespace line).length < 2 →
      parseLine i exp line = some (.error ⟨tooFewColumnsMsg (i + 1)⟩)) ∧
    (∀ (input line : List Char) (rest : List (List Char)),
      rustLines input = line :: rest →
      (splitWhitespace line).length < 2 →
      TransitionTable.parse input = some (.error ⟨tooFewColumnsMsg 1⟩)) ∧
    TransitionTable.parse ("- 0".data) = some (.ok ⟨[⟨false, 0, []⟩]⟩) := by
  refine ⟨parseLine_tooFew, ?_, rfl⟩
  intro input line rest hlines hlen
  simp only [TransitionTable.parse, hlines]
  rw [parseLines_cons_error (parseLine_tooFew 0 none line hlen)]

theorem too_few_columns_error_witness :
    parseLine 2 (some 4) ("x".data) = some (.error ⟨tooFewColumnsMsg 3⟩) ∧
    TransitionTable.parse ("y\n- 0".data) =
      some (.error ⟨tooFewColumnsMsg 1⟩) :=
  ⟨too_few_columns_error.1 2 (some 4) ("x".data) (by decide),
   too_few_columns_error.2.1 ("y\n- 0".data) ("y".data) ["- 0".data]
     rfl (by decide)⟩

/-- C9: serialize emits the rows in the table's current internal order
without re-sorting: the output is exactly the rows' lines — accepting
marker, a space, the decimal id, then per transition a space and the
decimal target id or the literal `E` — joined by single newlines with
no trailing newline. -/
theorem serialize_format (t : TransitionTable) :
    t.serialize = .ok (joinSep ['\n'] (t.rows.map rowText)) :=
  serialize_eq_text t

theorem serialize_format_witness :
    TransitionTable.serialize providedTable =
      .ok (joinSep ['\n'] (providedTable.rows.map rowText)) :=
  serialize_format providedTable

/-- C10: serialize is total on its error channel: it returns `Ok` for
every table whatsoever — duplicate ids and inconsistent transition
lengths included — and the empty table serializes to the empty
string. -/
theorem serialize_total :
    (∀ t : TransitionTable, ∃ s, t.serialize = Except.ok s) ∧
    TransitionTable.serialize ⟨[]⟩ = .ok [] :=
  ⟨fun t => ⟨serializeText t, serialize_eq_text t⟩, rfl⟩
